import Mathlib

/-!
Verification of the `lf` line-ending normalizer (`src/main.rs`).

The tool walks a directory tree (or takes a single file), classifies each
regular file as likely-text via a NUL-byte heuristic on its first 1024
bytes, and rewrites CRLF sequences to LF in place, tallying
converted / skipped / errored outcomes.

Shallow embedding: file contents are byte lists (`List Nat`), the
filesystem state of a single file is a `FileSys` record carrying its
bytes together with flags saying whether the open/read and write
system calls succeed, and the fallible Rust functions return a
`PResult` mirroring `io::Result<bool>`.
-/

set_option autoImplicit false

namespace LineFeed

/-- Byte-level test for a CRLF (0x0D 0x0A) substring, the embedding of
`content.contains("\r\n")` from `process_file` step 3. -/
def containsCRLF : List Nat → Bool
  | [] => false
  | [_] => false
  | b :: c :: rest => if b = 13 ∧ c = 10 then true else containsCRLF (c :: rest)

/-- Number of non-overlapping CRLF matches found by a left-to-right scan,
the match count underlying `str::replace("\r\n", _)`. -/
def countCRLF : List Nat → Nat
  | [] => 0
  | [_] => 0
  | b :: c :: rest =>
    if b = 13 ∧ c = 10 then countCRLF rest + 1 else countCRLF (c :: rest)

/-- Left-to-right, non-overlapping replacement of every CRLF by a single LF:
the embedding of `content.replace("\r\n", "\n")` from `process_file` step 4. -/
def replaceCRLF : List Nat → List Nat
  | [] => []
  | [b] => [b]
  | b :: c :: rest =>
    if b = 13 ∧ c = 10 then 10 :: replaceCRLF rest
    else b :: replaceCRLF (c :: rest)

/-- Byte-level test for the three-byte substring CR CR LF (0x0D 0x0D 0x0A).
A lone CR directly in front of a CRLF match is the one shape that lets
`replace("\r\n", "\n")` leave a fresh CRLF in its output. -/
def containsCRCRLF : List Nat → Bool
  | b :: c :: d :: rest =>
    if b = 13 ∧ c = 13 ∧ d = 10 then true else containsCRCRLF (c :: d :: rest)
  | _ => false

/-- Index of the leftmost CRLF match, if any: the search step of Rust
`str::replace`, which repeatedly locates the next pattern occurrence. -/
def findCRLF : List Nat → Option Nat
  | [] => none
  | [_] => none
  | b :: c :: rest =>
    if b = 13 ∧ c = 10 then some 0
    else (findCRLF (c :: rest)).map (· + 1)

/-- Search-and-splice substring replacement, following the specification of
replacement as a straight substring operation: repeatedly find the leftmost
CRLF occurrence, keep the bytes before it, emit one LF, and continue after
the match.  The fuel argument (instantiated with the list length, always
sufficient since every splice consumes at least two bytes) only makes the
recursion structural. -/
def rustReplaceAux : Nat → List Nat → List Nat
  | 0, l => l
  | fuel + 1, l =>
    match findCRLF l with
    | none => l
    | some i => l.take i ++ 10 :: rustReplaceAux fuel (l.drop (i + 2))

/-- Search-and-splice replacement of every CRLF by LF (see `rustReplaceAux`). -/
def rustReplace (l : List Nat) : List Nat := rustReplaceAux l.length l

/-- UTF-8 continuation byte: 0x80–0xBF. -/
def contByte (b : Nat) : Bool := 0x80 ≤ b ∧ b ≤ 0xBF

/-- Constraint on the first continuation byte of a three-byte sequence,
depending on the lead byte: 0xE0 forbids overlong encodings (second byte
0xA0–0xBF) and 0xED forbids surrogates (second byte 0x80–0x9F). -/
def lead3 (b c1 : Nat) : Bool :=
  if b = 0xE0 then decide (0xA0 ≤ c1 ∧ c1 ≤ 0xBF)
  else if b = 0xED then decide (0x80 ≤ c1 ∧ c1 ≤ 0x9F)
  else contByte c1

/-- Constraint on the first continuation byte of a four-byte sequence:
0xF0 forbids overlong encodings (second byte 0x90–0xBF) and 0xF4 caps the
code point at U+10FFFF (second byte 0x80–0x8F). -/
def lead4 (b c1 : Nat) : Bool :=
  if b = 0xF0 then decide (0x90 ≤ c1 ∧ c1 ≤ 0xBF)
  else if b = 0xF4 then decide (0x80 ≤ c1 ∧ c1 ≤ 0x8F)
  else contByte c1

mutual

/-- Standard UTF-8 validity of a byte sequence, the decoding check performed
by `fs::read_to_string` (which fails with `InvalidData` on malformed input).
Overlong encodings, surrogates and values above U+10FFFF are rejected, as in
Rust's validator.  `cont1`, `cont2 b` and `cont3 b` validate the
continuation bytes of a two-, three- and four-byte sequence led by `b` and
then resume on the remaining bytes. -/
def validUtf8 : List Nat → Bool
  | [] => true
  | b :: rest =>
    if b ≤ 0x7F then validUtf8 rest
    else if 0xC2 ≤ b ∧ b ≤ 0xDF then cont1 rest
    else if 0xE0 ≤ b ∧ b ≤ 0xEF then cont2 b rest
    else if 0xF0 ≤ b ∧ b ≤ 0xF4 then cont3 b rest
    else false

/-- Continuation of a two-byte UTF-8 sequence (see `validUtf8`). -/
def cont1 : List Nat → Bool
  | c1 :: r => contByte c1 && validUtf8 r
  | [] => false

/-- Continuation of a three-byte UTF-8 sequence (see `validUtf8`). -/
def cont2 (b : Nat) : List Nat → Bool
  | c1 :: c2 :: r => lead3 b c1 && contByte c2 && validUtf8 r
  | _ => false

/-- Continuation of a four-byte UTF-8 sequence (see `validUtf8`). -/
def cont3 (b : Nat) : List Nat → Bool
  | c1 :: c2 :: c3 :: r => lead4 b c1 && contByte c2 && contByte c3 && validUtf8 r
  | _ => false

end

/-- State of one file as the program sees it: its byte content plus flags
recording whether each of the three fallible system interactions succeeds
(`File::open`/`Read::read` used by the classifier, the read half of
`fs::read_to_string`, and `fs::write`).  A failing write is modelled as
atomic: the content field is left as it was. -/
structure FileSys where
  content : List Nat
  openReadOk : Bool
  readOk : Bool
  writeOk : Bool
deriving DecidableEq

/-- The distinct `io::Error` sources of the per-file pipeline. -/
inductive PError where
  | ioClassify
  | ioRead
  | decode
  | ioWrite
deriving DecidableEq

/-- Mirror of `io::Result<bool>` as returned by `process_file`:
`ok true` = converted, `ok false` = skipped, `err` = I/O or decode error. -/
inductive PResult where
  | ok (converted : Bool)
  | err (e : PError)
deriving DecidableEq

/-- Which of the two file-content system calls the pipeline actually issued:
the full-content read (`fs::read_to_string`) and the write (`fs::write`). -/
structure Effects where
  didFullRead : Bool
  didWrite : Bool
deriving DecidableEq

/-- The classifier's sampled predicate: does the head sample (first 1024
bytes, fewer if the file is shorter) contain a NUL byte. -/
def headHasNul (f : FileSys) : Bool := (f.content.take 1024).contains 0

/-- Embedding of `is_likely_text_file`: open the file and read up to 1024
bytes (an I/O failure propagates as an error), then report whether the
sample is NUL-free. -/
def is_likely_text_file (f : FileSys) : PResult :=
  if f.openReadOk = false then .err .ioClassify
  else .ok (!headHasNul f)

/-- Embedding of `process_file`: classify, fully read and decode, test for
CRLF, replace CRLF by LF and write back.  Returns the `io::Result<bool>`,
the resulting file state, and which content accesses were performed. -/
def process_file (f : FileSys) : PResult × FileSys × Effects :=
  match is_likely_text_file f with
  | .err e => (.err e, f, ⟨false, false⟩)
  | .ok false => (.ok false, f, ⟨false, false⟩)
  | .ok true =>
    if f.readOk = false then (.err .ioRead, f, ⟨true, false⟩)
    else if validUtf8 f.content = false then (.err .decode, f, ⟨true, false⟩)
    else if containsCRLF f.content = false then (.ok false, f, ⟨true, false⟩)
    else if f.writeOk = false then (.err .ioWrite, f, ⟨true, true⟩)
    else (.ok true, { f with content := replaceCRLF f.content }, ⟨true, true⟩)

/-- One item produced by the `WalkDir` iteration in `main`: a traversal
error (`Err` from the walker), an entry whose path is not a regular file,
or a regular file with its filesystem state. -/
inductive Entry where
  | err
  | nonfile
  | file (f : FileSys)
deriving DecidableEq

/-- The three outcome counters of directory mode
(`processed_count`, `skipped_count`, `error_count`). -/
structure Tally where
  converted : Nat
  skipped : Nat
  errored : Nat
deriving DecidableEq

/-- Body of the `for_each` closure in `main`'s directory branch: traversal
errors bump the error counter, non-files are ignored, and a regular file is
sent through `process_file` with exactly one counter bumped per outcome. -/
def step (t : Tally) : Entry → Tally
  | .err => { t with errored := t.errored + 1 }
  | .nonfile => t
  | .file f =>
    match (process_file f).1 with
    | .ok true => { t with converted := t.converted + 1 }
    | .ok false => { t with skipped := t.skipped + 1 }
    | .err _ => { t with errored := t.errored + 1 }

/-- Directory-mode run over a stream of walker entries.  The counters are
atomics incremented once per entry in the Rust code; since each entry
touches exactly one counter and addition commutes, the final tally is
order-independent and a left fold models it. -/
def runDir (es : List Entry) : Tally := es.foldl step ⟨0, 0, 0⟩

/-- State transformation of one walker entry: a regular file ends up in the
state `process_file` leaves it in; everything else is untouched. -/
def processEntry : Entry → Entry
  | .file f => .file (process_file f).2.1
  | e => e

/-- The root path given to `main`: a directory (with the entry stream its
traversal yields), a regular file, or anything else (nonexistent path or
other entry type). -/
inductive Root where
  | dir (entries : List Entry)
  | file (f : FileSys)
  | other
deriving DecidableEq

/-- Observable result of a run of `main`: a directory-mode run with its
final tally, a single-file run with its reported outcome, or no work at
all (the fall-through when the root is neither directory nor file). -/
inductive RunResult where
  | dirRun (t : Tally)
  | fileRun (r : PResult)
  | nothing
deriving DecidableEq

/-- Embedding of `main`'s branching on the root path: directory mode folds
the pipeline over all entries, file mode runs the pipeline once, and any
other root does nothing.  Returns the run result and the final world. -/
def mainModel : Root → RunResult × Root
  | .dir es => (.dirRun (runDir es), .dir (es.map processEntry))
  | .file f => (.fileRun (process_file f).1, .file (process_file f).2.1)
  | .other => (.nothing, .other)

/-- A regular file that converts: readable, NUL-free head sample, decodable,
CRLF-bearing, and writable — the "CRLF-bearing text" class of a tree census. -/
def classConverted (f : FileSys) : Bool :=
  f.openReadOk && !headHasNul f && f.readOk && validUtf8 f.content
    && containsCRLF f.content && f.writeOk

/-- A regular file that is skipped: binary by the NUL heuristic, or
readable CRLF-free text. -/
def classSkipped (f : FileSys) : Bool :=
  f.openReadOk
    && (headHasNul f
        || (f.readOk && validUtf8 f.content && !containsCRLF f.content))

/-- A regular file whose open/read fails: the "unreadable" class. -/
def classUnreadable (f : FileSys) : Bool := !f.openReadOk

/-- A walker entry of the well-classified trees quantified over by the
tally census: no traversal errors, and every regular file falls in one of
the three classes. -/
def entryWellClassified : Entry → Bool
  | .err => false
  | .nonfile => true
  | .file f => classConverted f || classSkipped f || classUnreadable f

/-- Number of regular-file entries satisfying a class predicate. -/
def cntClass (p : FileSys → Bool) (es : List Entry) : Nat :=
  (es.filter fun e => match e with | .file f => p f | _ => false).length

/-- Number of regular-file entries in a walker stream. -/
def cntFiles (es : List Entry) : Nat :=
  (es.filter fun e => match e with | .file _ => true | _ => false).length

/-- The concrete three-file directory of the specification's walkthrough
scenario: `a.txt` = "hello\r\nworld\r\n", `b.bin` = the raw bytes
0x00 0x01 0x02, `c.txt` = "no crlf here\n", all fully accessible. -/
def sampleTree : List Entry :=
  [.file ⟨[104, 101, 108, 108, 111, 13, 10, 119, 111, 114, 108, 100, 13, 10], true, true, true⟩,
   .file ⟨[0, 1, 2], true, true, true⟩,
   .file ⟨[110, 111, 32, 99, 114, 108, 102, 32, 104, 101, 114, 101, 10], true, true, true⟩]

/-! Helper lemmas: structure of the scan-based byte functions. -/

theorem twoStepInduction {P : List Nat → Prop} (h0 : P []) (h1 : ∀ b, P [b])
    (h2 : ∀ b c rest, P rest → P (c :: rest) → P (b :: c :: rest)) :
    ∀ l : List Nat, P l
  | [] => h0
  | [b] => h1 b
  | b :: c :: rest =>
    h2 b c rest (twoStepInduction h0 h1 h2 rest) (twoStepInduction h0 h1 h2 (c :: rest))

theorem replaceCRLF_cons₂ (b c : Nat) (rest : List Nat) :
    replaceCRLF (b :: c :: rest) =
      if b = 13 ∧ c = 10 then 10 :: replaceCRLF rest else b :: replaceCRLF (c :: rest) := rfl

theorem countCRLF_cons₂ (b c : Nat) (rest : List Nat) :
    countCRLF (b :: c :: rest) =
      if b = 13 ∧ c = 10 then countCRLF rest + 1 else countCRLF (c :: rest) := rfl

theorem containsCRLF_cons₂ (b c : Nat) (rest : List Nat) :
    containsCRLF (b :: c :: rest) =
      if b = 13 ∧ c = 10 then true else containsCRLF (c :: rest) := rfl

theorem containsCRCRLF_cons₃ (b c d : Nat) (rest : List Nat) :
    containsCRCRLF (b :: c :: d :: rest) =
      if b = 13 ∧ c = 13 ∧ d = 10 then true else containsCRCRLF (c :: d :: rest) := rfl

theorem findCRLF_cons₂ (b c : Nat) (rest : List Nat) :
    findCRLF (b :: c :: rest) =
      if b = 13 ∧ c = 10 then some 0 else (findCRLF (c :: rest)).map (· + 1) := rfl

theorem replaceCRLF_cons_ne {a : Nat} (ha : a ≠ 13) (l : List Nat) :
    replaceCRLF (a :: l) = a :: replaceCRLF l := by
  cases l with
  | nil => rfl
  | cons c rest => rw [replaceCRLF_cons₂, if_neg (fun hm => ha hm.1)]

theorem length_replaceCRLF : ∀ l : List Nat, (replaceCRLF l).length + countCRLF l = l.length := by
  intro l
  induction l using twoStepInduction with
  | h0 => rfl
  | h1 b => rfl
  | h2 b c rest ih1 ih2 =>
    rw [replaceCRLF_cons₂, countCRLF_cons₂]
    simp only [List.length_cons] at ih1 ih2 ⊢
    by_cases hm : b = 13 ∧ c = 10
    · rw [if_pos hm, if_pos hm]
      simp only [List.length_cons]
      omega
    · rw [if_neg hm, if_neg hm]
      simp only [List.length_cons]
      omega

theorem count10_replaceCRLF : ∀ l : List Nat, (replaceCRLF l).count 10 = l.count 10 := by
  intro l
  induction l using twoStepInduction with
  | h0 => rfl
  | h1 b => rfl
  | h2 b c rest ih1 ih2 =>
    rw [replaceCRLF_cons₂]
    by_cases hm : b = 13 ∧ c = 10
    · obtain ⟨hb, hc⟩ := hm
      subst hb; subst hc
      rw [if_pos ⟨rfl, rfl⟩]
      simp [List.count_cons] at ih1 ih2 ⊢
      omega
    · rw [if_neg hm]
      simp [List.count_cons] at ih1 ih2 ⊢
      omega

theorem count13_replaceCRLF : ∀ l : List Nat, (replaceCRLF l).count 13 + countCRLF l = l.count 13 := by
  intro l
  induction l using twoStepInduction with
  | h0 => rfl
  | h1 b => rfl
  | h2 b c rest ih1 ih2 =>
    rw [replaceCRLF_cons₂, countCRLF_cons₂]
    by_cases hm : b = 13 ∧ c = 10
    · obtain ⟨hb, hc⟩ := hm
      subst hb; subst hc
      rw [if_pos ⟨rfl, rfl⟩, if_pos ⟨rfl, rfl⟩]
      simp [List.count_cons] at ih1 ih2 ⊢
      omega
    · rw [if_neg hm, if_neg hm]
      simp [List.count_cons] at ih1 ih2 ⊢
      omega

theorem replaceCRLF_of_not_contains : ∀ l : List Nat, containsCRLF l = false → replaceCRLF l = l := by
  intro l
  induction l using twoStepInduction with
  | h0 => intro _; rfl
  | h1 b => intro _; rfl
  | h2 b c rest ih1 ih2 =>
    intro h
    rw [containsCRLF_cons₂] at h
    by_cases hm : b = 13 ∧ c = 10
    · rw [if_pos hm] at h; exact absurd h (by simp)
    · rw [if_neg hm] at h
      rw [replaceCRLF_cons₂, if_neg hm, ih2 h]

theorem containsCRLF_cons_ne {a : Nat} (ha : a ≠ 13) (l : List Nat) :
    containsCRLF (a :: l) = containsCRLF l := by
  cases l with
  | nil => rfl
  | cons c rest =>
    rw [containsCRLF_cons₂, if_neg (fun hm => ha hm.1)]

theorem containsCRCRLF_tail {a : Nat} {l : List Nat}
    (h : containsCRCRLF (a :: l) = false) : containsCRCRLF l = false := by
  cases l with
  | nil => rfl
  | cons c rest =>
    cases rest with
    | nil => rfl
    | cons d r =>
      rw [containsCRCRLF_cons₃] at h
      by_cases hm : a = 13 ∧ c = 13 ∧ d = 10
      · rw [if_pos hm] at h; exact absurd h (by simp)
      · rw [if_neg hm] at h; exact h

theorem noNewCRLF : ∀ l : List Nat, containsCRCRLF l = false →
    containsCRLF (replaceCRLF l) = false := by
  intro l
  induction l using twoStepInduction with
  | h0 => intro _; rfl
  | h1 b => intro _; rfl
  | h2 b c rest ih1 ih2 =>
    intro h
    rw [replaceCRLF_cons₂]
    by_cases hm : b = 13 ∧ c = 10
    · rw [if_pos hm]
      rw [containsCRLF_cons_ne (by norm_num)]
      exact ih1 (containsCRCRLF_tail (containsCRCRLF_tail h))
    · rw [if_neg hm]
      by_cases hb : b = 13
      · have hc : c ≠ 10 := fun hcc => hm ⟨hb, hcc⟩
        subst hb
        cases rest with
        | nil =>
          rw [show replaceCRLF [c] = [c] from rfl, containsCRLF_cons₂,
            if_neg (fun hx => hc hx.2)]
          rfl
        | cons d r =>
          by_cases hcd : c = 13 ∧ d = 10
          · exfalso
            rw [containsCRCRLF_cons₃, if_pos ⟨rfl, hcd.1, hcd.2⟩] at h
            exact absurd h (by simp)
          · rw [replaceCRLF_cons₂, if_neg hcd, containsCRLF_cons₂,
              if_neg (fun hx => hc hx.2)]
            have h2 := ih2 (containsCRCRLF_tail h)
            rw [replaceCRLF_cons₂, if_neg hcd] at h2
            exact h2
      · rw [containsCRLF_cons_ne hb]
        exact ih2 (containsCRCRLF_tail h)

theorem findCRLF_none : ∀ l : List Nat, findCRLF l = none → containsCRLF l = false := by
  intro l
  induction l using twoStepInduction with
  | h0 => intro _; rfl
  | h1 b => intro _; rfl
  | h2 b c rest ih1 ih2 =>
    intro h
    rw [findCRLF_cons₂] at h
    rw [containsCRLF_cons₂]
    by_cases hm : b = 13 ∧ c = 10
    · rw [if_pos hm] at h; exact absurd h (by simp)
    · rw [if_neg hm] at h
      rw [if_neg hm]
      exact ih2 (by
        cases hf : findCRLF (c :: rest) with
        | none => rfl
        | some j => rw [hf] at h; simp at h)

theorem findCRLF_bound : ∀ l : List Nat, ∀ i, findCRLF l = some i → i + 2 ≤ l.length := by
  intro l
  induction l using twoStepInduction with
  | h0 => intro i h; exact absurd h (by simp [findCRLF])
  | h1 b => intro i h; exact absurd h (by simp [findCRLF])
  | h2 b c rest ih1 ih2 =>
    intro i h
    rw [findCRLF_cons₂] at h
    by_cases hm : b = 13 ∧ c = 10
    · rw [if_pos hm] at h
      simp at h
      subst h
      simp [List.length_cons]
    · rw [if_neg hm] at h
      cases hf : findCRLF (c :: rest) with
      | none => rw [hf] at h; simp at h
      | some j =>
        rw [hf] at h
        simp at h
        have := ih2 j hf
        simp only [List.length_cons] at this ⊢
        omega

theorem replaceCRLF_splice : ∀ l : List Nat, ∀ i, findCRLF l = some i →
    replaceCRLF l = l.take i ++ 10 :: replaceCRLF (l.drop (i + 2)) := by
  intro l
  induction l using twoStepInduction with
  | h0 => intro i h; exact absurd h (by simp [findCRLF])
  | h1 b => intro i h; exact absurd h (by simp [findCRLF])
  | h2 b c rest ih1 ih2 =>
    intro i h
    rw [findCRLF_cons₂] at h
    by_cases hm : b = 13 ∧ c = 10
    · rw [if_pos hm] at h
      simp at h
      subst h
      obtain ⟨hb, hc⟩ := hm
      subst hb; subst hc
      rw [replaceCRLF_cons₂, if_pos ⟨rfl, rfl⟩]
      rfl
    · rw [if_neg hm] at h
      cases hf : findCRLF (c :: rest) with
      | none => rw [hf] at h; simp at h
      | some j =>
        rw [hf] at h
        simp at h
        subst h
        rw [replaceCRLF_cons₂, if_neg hm, ih2 j hf]
        rfl

theorem rustReplaceAux_eq : ∀ n : Nat, ∀ l : List Nat, l.length ≤ n →
    rustReplaceAux n l = replaceCRLF l := by
  intro n
  induction n with
  | zero =>
    intro l hl
    rw [List.length_eq_zero.mp (Nat.le_zero.mp hl)]
    rfl
  | succ n ih =>
    intro l hl
    cases hf : findCRLF l with
    | none =>
      rw [show rustReplaceAux (n + 1) l = l from by rw [rustReplaceAux]; rw [hf],
        replaceCRLF_of_not_contains l (findCRLF_none l hf)]
    | some i =>
      have hb := findCRLF_bound l i hf
      rw [show rustReplaceAux (n + 1) l = l.take i ++ 10 :: rustReplaceAux n (l.drop (i + 2)) from by
        rw [rustReplaceAux]; rw [hf]]
      rw [replaceCRLF_splice l i hf]
      rw [ih (l.drop (i + 2)) (by simp [List.length_drop]; omega)]

theorem rustReplace_eq (l : List Nat) : rustReplace l = replaceCRLF l :=
  rustReplaceAux_eq l.length l (Nat.le_refl _)

/-! Helper lemmas: UTF-8 validity and its preservation by CRLF → LF. -/

theorem validUtf8_cons (b : Nat) (rest : List Nat) :
    validUtf8 (b :: rest) =
      (if b ≤ 0x7F then validUtf8 rest
       else if 0xC2 ≤ b ∧ b ≤ 0xDF then cont1 rest
       else if 0xE0 ≤ b ∧ b ≤ 0xEF then cont2 b rest
       else if 0xF0 ≤ b ∧ b ≤ 0xF4 then cont3 b rest
       else false) := rfl

theorem cont1_cons (c1 : Nat) (r : List Nat) :
    cont1 (c1 :: r) = (contByte c1 && validUtf8 r) := rfl

theorem cont2_cons (b c1 c2 : Nat) (r : List Nat) :
    cont2 b (c1 :: c2 :: r) = (lead3 b c1 && contByte c2 && validUtf8 r) := rfl

theorem cont3_cons (b c1 c2 c3 : Nat) (r : List Nat) :
    cont3 b (c1 :: c2 :: c3 :: r) = (lead4 b c1 && contByte c2 && contByte c3 && validUtf8 r) := rfl

theorem contByte_range {c : Nat} (h : contByte c = true) : 0x80 ≤ c ∧ c ≤ 0xBF := by
  simpa [contByte] using h

theorem lead3_range {b c1 : Nat} (h : lead3 b c1 = true) : 0x80 ≤ c1 := by
  unfold lead3 at h
  split_ifs at h <;> simp [contByte] at h <;> omega

theorem lead4_range {b c1 : Nat} (h : lead4 b c1 = true) : 0x80 ≤ c1 := by
  unfold lead4 at h
  split_ifs at h <;> simp [contByte] at h <;> omega

theorem validUtf8_ascii {b : Nat} (hb : b ≤ 0x7F) (l : List Nat) :
    validUtf8 (b :: l) = validUtf8 l := by
  rw [validUtf8_cons, if_pos hb]

theorem validUtf8_two {b : Nat} (hb : 0xC2 ≤ b ∧ b ≤ 0xDF) (c1 : Nat) (r : List Nat) :
    validUtf8 (b :: c1 :: r) = (contByte c1 && validUtf8 r) := by
  rw [validUtf8_cons, if_neg (by omega), if_pos hb, cont1_cons]

theorem validUtf8_two_nil {b : Nat} (hb : 0xC2 ≤ b ∧ b ≤ 0xDF) :
    validUtf8 [b] = false := by
  rw [validUtf8_cons, if_neg (by omega), if_pos hb]
  rfl

theorem validUtf8_three {b : Nat} (hb : 0xE0 ≤ b ∧ b ≤ 0xEF) (c1 c2 : Nat) (r : List Nat) :
    validUtf8 (b :: c1 :: c2 :: r) = (lead3 b c1 && contByte c2 && validUtf8 r) := by
  rw [validUtf8_cons, if_neg (by omega), if_neg (by omega), if_pos hb, cont2_cons]

theorem validUtf8_three_nil {b : Nat} (hb : 0xE0 ≤ b ∧ b ≤ 0xEF) :
    validUtf8 [b] = false := by
  rw [validUtf8_cons, if_neg (by omega), if_neg (by omega), if_pos hb]
  rfl

theorem validUtf8_three_one {b c1 : Nat} (hb : 0xE0 ≤ b ∧ b ≤ 0xEF) :
    validUtf8 [b, c1] = false := by
  rw [validUtf8_cons, if_neg (by omega), if_neg (by omega), if_pos hb]
  rfl

theorem validUtf8_four {b : Nat} (hb : 0xF0 ≤ b ∧ b ≤ 0xF4) (c1 c2 c3 : Nat) (r : List Nat) :
    validUtf8 (b :: c1 :: c2 :: c3 :: r) =
      (lead4 b c1 && contByte c2 && contByte c3 && validUtf8 r) := by
  rw [validUtf8_cons, if_neg (by omega), if_neg (by omega), if_neg (by omega), if_pos hb,
    cont3_cons]

theorem validUtf8_four_nil {b : Nat} (hb : 0xF0 ≤ b ∧ b ≤ 0xF4) :
    validUtf8 [b] = false := by
  rw [validUtf8_cons, if_neg (by omega), if_neg (by omega), if_neg (by omega), if_pos hb]
  rfl

theorem validUtf8_four_one {b c1 : Nat} (hb : 0xF0 ≤ b ∧ b ≤ 0xF4) :
    validUtf8 [b, c1] = false := by
  rw [validUtf8_cons, if_neg (by omega), if_neg (by omega), if_neg (by omega), if_pos hb]
  rfl

theorem validUtf8_four_two {b c1 c2 : Nat} (hb : 0xF0 ≤ b ∧ b ≤ 0xF4) :
    validUtf8 [b, c1, c2] = false := by
  rw [validUtf8_cons, if_neg (by omega), if_neg (by omega), if_neg (by omega), if_pos hb]
  rfl

theorem validUtf8_bad {b : Nat} (h1 : ¬b ≤ 0x7F) (h2 : ¬(0xC2 ≤ b ∧ b ≤ 0xDF))
    (h3 : ¬(0xE0 ≤ b ∧ b ≤ 0xEF)) (h4 : ¬(0xF0 ≤ b ∧ b ≤ 0xF4)) (l : List Nat) :
    validUtf8 (b :: l) = false := by
  rw [validUtf8_cons, if_neg h1, if_neg h2, if_neg h3, if_neg h4]

theorem validUtf8_replaceCRLF_aux : ∀ n : Nat, ∀ l : List Nat, l.length ≤ n →
    validUtf8 l = true → validUtf8 (replaceCRLF l) = true := by
  intro n
  induction n with
  | zero =>
    intro l hl _
    rw [List.length_eq_zero.mp (Nat.le_zero.mp hl)]
    rfl
  | succ n ih =>
    intro l hl hv
    cases l with
    | nil => rfl
    | cons b rest =>
      simp only [List.length_cons] at hl
      by_cases hb : b ≤ 0x7F
      · rw [validUtf8_ascii hb] at hv
        cases rest with
        | nil =>
          rw [show replaceCRLF [b] = [b] from rfl, validUtf8_ascii hb]
          exact hv
        | cons c r =>
          simp only [List.length_cons] at hl
          by_cases hm : b = 13 ∧ c = 10
          · rw [replaceCRLF_cons₂, if_pos hm]
            rw [validUtf8_ascii (by norm_num : (10:Nat) ≤ 0x7F)]
            rw [validUtf8_ascii (by omega : c ≤ 0x7F)] at hv
            exact ih r (by omega) hv
          · rw [replaceCRLF_cons₂, if_neg hm, validUtf8_ascii hb]
            exact ih (c :: r) (by simp only [List.length_cons]; omega) hv
      · by_cases h2 : 0xC2 ≤ b ∧ b ≤ 0xDF
        · cases rest with
          | nil => exact absurd (validUtf8_two_nil h2 ▸ hv) (by simp)
          | cons c1 r =>
            simp only [List.length_cons] at hl
            rw [validUtf8_two h2] at hv
            simp only [Bool.and_eq_true] at hv
            obtain ⟨hc1, hr⟩ := hv
            have hc1r := contByte_range hc1
            rw [replaceCRLF_cons_ne (by omega : b ≠ 13),
              replaceCRLF_cons_ne (by omega : c1 ≠ 13),
              validUtf8_two h2]
            simp only [Bool.and_eq_true]
            exact ⟨hc1, ih r (by omega) hr⟩
        · by_cases h3 : 0xE0 ≤ b ∧ b ≤ 0xEF
          · cases rest with
            | nil => exact absurd (validUtf8_three_nil h3 ▸ hv) (by simp)
            | cons c1 rest1 =>
              cases rest1 with
              | nil => exact absurd (validUtf8_three_one h3 ▸ hv) (by simp)
              | cons c2 r =>
                simp only [List.length_cons] at hl
                rw [validUtf8_three h3] at hv
                simp only [Bool.and_eq_true] at hv
                obtain ⟨⟨hc1, hc2⟩, hr⟩ := hv
                have hc1r := lead3_range hc1
                have hc2r := contByte_range hc2
                rw [replaceCRLF_cons_ne (by omega : b ≠ 13),
                  replaceCRLF_cons_ne (by omega : c1 ≠ 13),
                  replaceCRLF_cons_ne (by omega : c2 ≠ 13),
                  validUtf8_three h3]
                simp only [Bool.and_eq_true]
                exact ⟨⟨hc1, hc2⟩, ih r (by omega) hr⟩
          · by_cases h4 : 0xF0 ≤ b ∧ b ≤ 0xF4
            · cases rest with
              | nil => exact absurd (validUtf8_four_nil h4 ▸ hv) (by simp)
              | cons c1 rest1 =>
                cases rest1 with
                | nil => exact absurd (validUtf8_four_one h4 ▸ hv) (by simp)
                | cons c2 rest2 =>
                  cases rest2 with
                  | nil => exact absurd (validUtf8_four_two h4 ▸ hv) (by simp)
                  | cons c3 r =>
                    simp only [List.length_cons] at hl
                    rw [validUtf8_four h4] at hv
                    simp only [Bool.and_eq_true] at hv
                    obtain ⟨⟨⟨hc1, hc2⟩, hc3⟩, hr⟩ := hv
                    have hc1r := lead4_range hc1
                    have hc2r := contByte_range hc2
                    have hc3r := contByte_range hc3
                    rw [replaceCRLF_cons_ne (by omega : b ≠ 13),
                      replaceCRLF_cons_ne (by omega : c1 ≠ 13),
                      replaceCRLF_cons_ne (by omega : c2 ≠ 13),
                      replaceCRLF_cons_ne (by omega : c3 ≠ 13),
                      validUtf8_four h4]
                    simp only [Bool.and_eq_true]
                    exact ⟨⟨⟨hc1, hc2⟩, hc3⟩, ih r (by omega) hr⟩
            · exact absurd (validUtf8_bad hb h2 h3 h4 rest ▸ hv) (by simp)

theorem validUtf8_replaceCRLF {l : List Nat} (h : validUtf8 l = true) :
    validUtf8 (replaceCRLF l) = true :=
  validUtf8_replaceCRLF_aux l.length l (Nat.le_refl _) h

/-! Helper lemmas: the per-file pipeline. -/

theorem contains_zero_eq_false_iff (l : List Nat) :
    l.contains 0 = false ↔ ∀ b ∈ l, b ≠ 0 := by
  have h : l.contains 0 = true ↔ 0 ∈ l := by simp
  constructor
  · intro hf b hb he
    have hx : l.contains 0 = true := h.mpr (he ▸ hb)
    rw [hf] at hx
    exact Bool.false_ne_true hx
  · intro hall
    cases hc : l.contains 0 with
    | false => rfl
    | true => exact absurd rfl (hall 0 (h.mp hc))

theorem contains_zero_eq_true_iff (l : List Nat) :
    l.contains 0 = true ↔ ∃ b ∈ l, b = 0 := by
  have h : l.contains 0 = true ↔ 0 ∈ l := by simp
  rw [h]
  constructor
  · intro hm; exact ⟨0, hm, rfl⟩
  · rintro ⟨b, hb, rfl⟩; exact hb

theorem headHasNul_false_iff (f : FileSys) :
    headHasNul f = false ↔ ∀ b ∈ f.content.take 1024, b ≠ 0 :=
  contains_zero_eq_false_iff (f.content.take 1024)

theorem headHasNul_true_iff (f : FileSys) :
    headHasNul f = true ↔ ∃ b ∈ f.content.take 1024, b = 0 :=
  contains_zero_eq_true_iff (f.content.take 1024)

theorem process_file_ok_true {f : FileSys} (h : (process_file f).1 = .ok true) :
    f.openReadOk = true ∧ headHasNul f = false ∧ f.readOk = true ∧
      validUtf8 f.content = true ∧ containsCRLF f.content = true ∧ f.writeOk = true ∧
      process_file f =
        (.ok true, { f with content := replaceCRLF f.content }, ⟨true, true⟩) := by
  cases ho : f.openReadOk <;> cases hn : headHasNul f <;> cases hr : f.readOk <;>
    cases hu : validUtf8 f.content <;> cases hc : containsCRLF f.content <;>
    cases hw : f.writeOk <;>
    simp_all [process_file, is_likely_text_file]

theorem process_file_classify_err {f : FileSys} (ho : f.openReadOk = false) :
    process_file f = (.err .ioClassify, f, ⟨false, false⟩) := by
  simp [process_file, is_likely_text_file, ho]

theorem process_file_nul_skip {f : FileSys} (ho : f.openReadOk = true)
    (hn : headHasNul f = true) :
    process_file f = (.ok false, f, ⟨false, false⟩) := by
  simp [process_file, is_likely_text_file, ho, hn]

theorem process_file_nocrlf_skip {f : FileSys} (ho : f.openReadOk = true)
    (hn : headHasNul f = false) (hr : f.readOk = true)
    (hu : validUtf8 f.content = true) (hc : containsCRLF f.content = false) :
    process_file f = (.ok false, f, ⟨true, false⟩) := by
  simp [process_file, is_likely_text_file, ho, hn, hr, hu, hc]

theorem process_file_read_err {f : FileSys} (ho : f.openReadOk = true)
    (hn : headHasNul f = false) (hr : f.readOk = false) :
    process_file f = (.err .ioRead, f, ⟨true, false⟩) := by
  simp [process_file, is_likely_text_file, ho, hn, hr]

theorem process_file_decode_err {f : FileSys} (ho : f.openReadOk = true)
    (hn : headHasNul f = false) (hr : f.readOk = true)
    (hu : validUtf8 f.content = false) :
    process_file f = (.err .decode, f, ⟨true, false⟩) := by
  simp [process_file, is_likely_text_file, ho, hn, hr, hu]

theorem process_file_write_err {f : FileSys} (ho : f.openReadOk = true)
    (hn : headHasNul f = false) (hr : f.readOk = true)
    (hu : validUtf8 f.content = true) (hc : containsCRLF f.content = true)
    (hw : f.writeOk = false) :
    process_file f = (.err .ioWrite, f, ⟨true, true⟩) := by
  simp [process_file, is_likely_text_file, ho, hn, hr, hu, hc, hw]

theorem process_file_converts {f : FileSys} (ho : f.openReadOk = true)
    (hn : headHasNul f = false) (hr : f.readOk = true)
    (hu : validUtf8 f.content = true) (hc : containsCRLF f.content = true)
    (hw : f.writeOk = true) :
    process_file f = (.ok true, { f with content := replaceCRLF f.content }, ⟨true, true⟩) := by
  simp [process_file, is_likely_text_file, ho, hn, hr, hu, hc, hw]

theorem classConverted_process {f : FileSys} (h : classConverted f = true) :
    process_file f = (.ok true, { f with content := replaceCRLF f.content }, ⟨true, true⟩) := by
  simp only [classConverted, Bool.and_eq_true, Bool.not_eq_true'] at h
  obtain ⟨⟨⟨⟨⟨ho, hn⟩, hr⟩, hu⟩, hc⟩, hw⟩ := h
  exact process_file_converts ho hn hr hu hc hw

theorem classSkipped_process {f : FileSys} (h : classSkipped f = true) :
    (process_file f).1 = .ok false ∧ (process_file f).2.1 = f := by
  simp only [classSkipped, Bool.and_eq_true, Bool.or_eq_true, Bool.not_eq_true'] at h
  obtain ⟨ho, hn | ⟨⟨hr, hu⟩, hc⟩⟩ := h
  · rw [process_file_nul_skip ho hn]
    exact ⟨rfl, rfl⟩
  · by_cases hnul : headHasNul f = true
    · rw [process_file_nul_skip ho hnul]
      exact ⟨rfl, rfl⟩
    · rw [process_file_nocrlf_skip ho (by simpa using hnul) hr hu hc]
      exact ⟨rfl, rfl⟩

theorem classUnreadable_process {f : FileSys} (h : classUnreadable f = true) :
    process_file f = (.err .ioClassify, f, ⟨false, false⟩) := by
  simp only [classUnreadable, Bool.not_eq_true'] at h
  exact process_file_classify_err h

theorem class_exclusive (f : FileSys) :
    (classConverted f = true → classSkipped f = false ∧ classUnreadable f = false) ∧
    (classSkipped f = true → classUnreadable f = false) := by
  simp only [classConverted, classSkipped, classUnreadable]
  cases f.openReadOk <;> cases headHasNul f <;> cases f.readOk <;>
    cases validUtf8 f.content <;> cases containsCRLF f.content <;> cases f.writeOk <;> simp

/-! Helper lemmas: directory-mode tallying. -/

theorem entryWellClassified_file (f : FileSys) :
    entryWellClassified (.file f) =
      (classConverted f || classSkipped f || classUnreadable f) := rfl

theorem cntClass_cons_file (p : FileSys → Bool) (f : FileSys) (es : List Entry) :
    cntClass p (.file f :: es) = cntClass p es + if p f = true then 1 else 0 := by
  by_cases hp : p f = true
  · simp [cntClass, List.filter_cons, hp]
  · simp [cntClass, List.filter_cons, hp]

theorem cntClass_cons_nonfile (p : FileSys → Bool) (es : List Entry) :
    cntClass p (.nonfile :: es) = cntClass p es := by
  simp [cntClass, List.filter_cons]

theorem cntFiles_cons_file (f : FileSys) (es : List Entry) :
    cntFiles (.file f :: es) = cntFiles es + 1 := by
  simp [cntFiles, List.filter_cons]

theorem cntFiles_cons_nonfile (es : List Entry) :
    cntFiles (.nonfile :: es) = cntFiles es := by
  simp [cntFiles, List.filter_cons]

theorem class_trichotomy {f : FileSys} (h : entryWellClassified (.file f) = true) :
    (classConverted f = true ∧ classSkipped f = false ∧ classUnreadable f = false) ∨
    (classConverted f = false ∧ classSkipped f = true ∧ classUnreadable f = false) ∨
    (classConverted f = false ∧ classSkipped f = false ∧ classUnreadable f = true) := by
  rw [entryWellClassified_file] at h
  cases hcv : classConverted f with
  | true => exact Or.inl ⟨rfl, ((class_exclusive f).1 hcv).1, ((class_exclusive f).1 hcv).2⟩
  | false =>
    cases hsk : classSkipped f with
    | true => exact Or.inr (Or.inl ⟨rfl, rfl, (class_exclusive f).2 hsk⟩)
    | false =>
      cases hun : classUnreadable f with
      | true => exact Or.inr (Or.inr ⟨rfl, rfl, rfl⟩)
      | false => rw [hcv, hsk, hun] at h; exact absurd h (by simp)

theorem runDir_foldAux : ∀ (es : List Entry) (t : Tally),
    (∀ e ∈ es, entryWellClassified e = true) →
    es.foldl step t =
      ⟨t.converted + cntClass classConverted es,
       t.skipped + cntClass classSkipped es,
       t.errored + cntClass classUnreadable es⟩ := by
  intro es
  induction es with
  | nil =>
    intro t _
    simp [cntClass]
  | cons e es ih =>
    intro t h
    have he := h e (List.mem_cons_self e es)
    have hes : ∀ x ∈ es, entryWellClassified x = true :=
      fun x hx => h x (List.mem_cons_of_mem e hx)
    rw [List.foldl_cons]
    cases e with
    | err => exact absurd he (by simp [entryWellClassified])
    | nonfile =>
      rw [show step t .nonfile = t from rfl, ih t hes,
        cntClass_cons_nonfile, cntClass_cons_nonfile, cntClass_cons_nonfile]
    | file f =>
      rcases class_trichotomy he with ⟨hcv, hsk, hun⟩ | ⟨hcv, hsk, hun⟩ | ⟨hcv, hsk, hun⟩
      · have hr1 : (process_file f).1 = .ok true := by rw [classConverted_process hcv]
        have hstep : step t (.file f) = { t with converted := t.converted + 1 } := by
          simp [step, hr1]
        rw [hstep, ih _ hes, cntClass_cons_file, cntClass_cons_file, cntClass_cons_file]
        simp only [hcv, hsk, hun, Tally.mk.injEq]
        refine ⟨by simp; omega, by simp, by simp⟩
      · have hr1 : (process_file f).1 = .ok false := (classSkipped_process hsk).1
        have hstep : step t (.file f) = { t with skipped := t.skipped + 1 } := by
          simp [step, hr1]
        rw [hstep, ih _ hes, cntClass_cons_file, cntClass_cons_file, cntClass_cons_file]
        simp only [hcv, hsk, hun, Tally.mk.injEq]
        refine ⟨by simp, by simp; omega, by simp⟩
      · have hr1 : (process_file f).1 = .err .ioClassify := by
          rw [classUnreadable_process hun]
        have hstep : step t (.file f) = { t with errored := t.errored + 1 } := by
          simp [step, hr1]
        rw [hstep, ih _ hes, cntClass_cons_file, cntClass_cons_file, cntClass_cons_file]
        simp only [hcv, hsk, hun, Tally.mk.injEq]
        refine ⟨by simp, by simp, by simp; omega⟩

theorem cnt_partition : ∀ es : List Entry,
    (∀ e ∈ es, entryWellClassified e = true) →
    cntClass classConverted es + cntClass classSkipped es + cntClass classUnreadable es
      = cntFiles es := by
  intro es
  induction es with
  | nil => intro _; rfl
  | cons e es ih =>
    intro h
    have he := h e (List.mem_cons_self e es)
    have hes : ∀ x ∈ es, entryWellClassified x = true :=
      fun x hx => h x (List.mem_cons_of_mem e hx)
    cases e with
    | err => exact absurd he (by simp [entryWellClassified])
    | nonfile =>
      rw [cntClass_cons_nonfile, cntClass_cons_nonfile, cntClass_cons_nonfile,
        cntFiles_cons_nonfile]
      exact ih hes
    | file f =>
      rw [cntClass_cons_file, cntClass_cons_file, cntClass_cons_file, cntFiles_cons_file]
      have hsum := ih hes
      rcases class_trichotomy he with ⟨hcv, hsk, hun⟩ | ⟨hcv, hsk, hun⟩ | ⟨hcv, hsk, hun⟩ <;>
        simp [hcv, hsk, hun] <;> omega

/-! Claim theorems. -/

/-- Claim C1, counterexample to the claim as stated: the content
CR CR LF contains one CRLF, `process_file` converts it, yet the written
content (CR LF) still contains a CRLF sequence — a lone CR directly in
front of a replaced CRLF fuses with the replacement LF. -/
theorem claim1_counterexample :
    containsCRLF (FileSys.mk [13, 13, 10] true true true).content = true ∧
    (process_file ⟨[13, 13, 10], true, true, true⟩).1 = .ok true ∧
    containsCRLF ((process_file ⟨[13, 13, 10], true, true, true⟩).2.1).content = true := by
  decide

/-- Claim C1 (amended): for every file whose text content contains at least
one CRLF and no CR CR LF byte sequence, the conversion performed by
`process_file` yields content with zero CRLF sequences, every original CRLF
maps to exactly one LF (the LF count is preserved and the CR count drops by
the number of CRLF matches), and the content length decreases by exactly the
number of non-overlapping CRLF occurrences. -/
theorem claim1_conversion (f : FileSys)
    (_hcr : containsCRLF f.content = true)
    (hno : containsCRCRLF f.content = false)
    (hconv : (process_file f).1 = .ok true) :
    containsCRLF ((process_file f).2.1).content = false ∧
    ((process_file f).2.1).content.length + countCRLF f.content = f.content.length ∧
    ((process_file f).2.1).content.count 10 = f.content.count 10 ∧
    ((process_file f).2.1).content.count 13 + countCRLF f.content = f.content.count 13 := by
  obtain ⟨-, -, -, -, -, -, heq⟩ := process_file_ok_true hconv
  have hf1 : (process_file f).2.1 = { f with content := replaceCRLF f.content } := by rw [heq]
  rw [hf1]
  exact ⟨noNewCRLF _ hno, length_replaceCRLF _, count10_replaceCRLF _, count13_replaceCRLF _⟩

/-- Claim C1, witness: the amended theorem applied to the file "\r\n". -/
theorem claim1_witness :
    containsCRLF ((process_file ⟨[13, 10], true, true, true⟩).2.1).content = false ∧
    ((process_file ⟨[13, 10], true, true, true⟩).2.1).content.length
        + countCRLF (FileSys.mk [13, 10] true true true).content
      = (FileSys.mk [13, 10] true true true).content.length ∧
    ((process_file ⟨[13, 10], true, true, true⟩).2.1).content.count 10
      = (FileSys.mk [13, 10] true true true).content.count 10 ∧
    ((process_file ⟨[13, 10], true, true, true⟩).2.1).content.count 13
        + countCRLF (FileSys.mk [13, 10] true true true).content
      = (FileSys.mk [13, 10] true true true).content.count 13 :=
  claim1_conversion ⟨[13, 10], true, true, true⟩ (by decide) (by decide) (by decide)

/-- Claim C2, counterexample to the claim as stated: on the file
"a\r\r\n" the first run converts (producing "a\r\n"), but the second run
converts again instead of skipping, and the content after two runs differs
from the content after one run. -/
theorem claim2_counterexample :
    (process_file ⟨[97, 13, 13, 10], true, true, true⟩).1 = .ok true ∧
    (process_file ((process_file ⟨[97, 13, 13, 10], true, true, true⟩).2.1)).1 = .ok true ∧
    (process_file ((process_file ⟨[97, 13, 13, 10], true, true, true⟩).2.1)).2.1.content ≠
      (process_file ⟨[97, 13, 13, 10], true, true, true⟩).2.1.content := by
  decide

/-- Claim C2 (amended): for every file on which `process_file` returns
"converted" and whose content contains no CR CR LF byte sequence, a second
run returns "skipped", performs no write, and leaves the file exactly as the
first run left it, so the content after two runs equals the content after
one run. -/
theorem claim2_idempotent (f : FileSys)
    (h1 : (process_file f).1 = .ok true)
    (h2 : containsCRCRLF f.content = false) :
    (process_file ((process_file f).2.1)).1 = .ok false ∧
    (process_file ((process_file f).2.1)).2.1 = (process_file f).2.1 ∧
    (process_file ((process_file f).2.1)).2.2.didWrite = false := by
  obtain ⟨ho, hn, hr, hu, hc, hw, heq⟩ := process_file_ok_true h1
  have hf1 : (process_file f).2.1 = { f with content := replaceCRLF f.content } := by rw [heq]
  rw [hf1]
  have hgo : ({ f with content := replaceCRLF f.content } : FileSys).openReadOk = true := ho
  have hgr : ({ f with content := replaceCRLF f.content } : FileSys).readOk = true := hr
  have hgu : validUtf8 ({ f with content := replaceCRLF f.content } : FileSys).content = true :=
    validUtf8_replaceCRLF hu
  have hgc : containsCRLF ({ f with content := replaceCRLF f.content } : FileSys).content
      = false := noNewCRLF _ h2
  by_cases hnul : headHasNul { f with content := replaceCRLF f.content } = true
  · rw [process_file_nul_skip hgo hnul]
    exact ⟨rfl, rfl, rfl⟩
  · have hnul2 : headHasNul { f with content := replaceCRLF f.content } = false := by
      simpa using hnul
    rw [process_file_nocrlf_skip hgo hnul2 hgr hgu hgc]
    exact ⟨rfl, rfl, rfl⟩

/-- Claim C2, witness: the amended theorem applied to the file "h\r\n". -/
theorem claim2_witness :
    (process_file ((process_file ⟨[104, 13, 10], true, true, true⟩).2.1)).1 = .ok false ∧
    (process_file ((process_file ⟨[104, 13, 10], true, true, true⟩).2.1)).2.1
      = (process_file ⟨[104, 13, 10], true, true, true⟩).2.1 ∧
    (process_file ((process_file ⟨[104, 13, 10], true, true, true⟩).2.1)).2.2.didWrite
      = false :=
  claim2_idempotent ⟨[104, 13, 10], true, true, true⟩ (by decide) (by decide)

/-- Claim C3: the classifier `is_likely_text_file` answers `ok true` exactly
when the file is readable and no byte of the 1024-byte head sample (all
bytes when the file is shorter) is NUL, answers `ok false` exactly when the
file is readable and the sample holds a NUL byte, and propagates an I/O
error exactly when the open/read fails. -/
theorem claim3_classifier_contract (f : FileSys) :
    (is_likely_text_file f = .ok true ↔
      f.openReadOk = true ∧ ∀ b ∈ f.content.take 1024, b ≠ 0) ∧
    (is_likely_text_file f = .ok false ↔
      f.openReadOk = true ∧ ∃ b ∈ f.content.take 1024, b = 0) ∧
    (is_likely_text_file f = .err .ioClassify ↔ f.openReadOk = false) := by
  refine ⟨⟨?_, ?_⟩, ⟨?_, ?_⟩, ⟨?_, ?_⟩⟩
  · intro h
    cases ho : f.openReadOk with
    | false => simp [is_likely_text_file, ho] at h
    | true =>
      refine ⟨rfl, (headHasNul_false_iff f).mp ?_⟩
      simp [is_likely_text_file, ho] at h
      simpa using h
  · rintro ⟨ho, hall⟩
    have hn : headHasNul f = false := (headHasNul_false_iff f).mpr hall
    simp [is_likely_text_file, ho, hn]
  · intro h
    cases ho : f.openReadOk with
    | false => simp [is_likely_text_file, ho] at h
    | true =>
      refine ⟨rfl, (headHasNul_true_iff f).mp ?_⟩
      simp [is_likely_text_file, ho] at h
      simpa using h
  · rintro ⟨ho, hex⟩
    have hn : headHasNul f = true := (headHasNul_true_iff f).mpr hex
    simp [is_likely_text_file, ho, hn]
  · intro h
    cases ho : f.openReadOk with
    | false => rfl
    | true => simp [is_likely_text_file, ho] at h
  · intro ho
    simp [is_likely_text_file, ho]

/-- Claim C3, witness: the classifier contract applied to a readable
two-byte text file, giving the `ok true` answer. -/
theorem claim3_witness :
    is_likely_text_file ⟨[104, 10], true, true, true⟩ = .ok true :=
  (claim3_classifier_contract ⟨[104, 10], true, true, true⟩).1.mpr ⟨rfl, by decide⟩

/-- Claim C4, counterexample to the claim as stated: when `fs::write`
itself fails the pipeline returns `Errored`, but a write to the file did
occur (the pipeline reached the write call), so "no write occurs on any
error path" is too strong. -/
theorem claim4_counterexample :
    (process_file ⟨[97, 13, 10], true, true, false⟩).1 = .err .ioWrite ∧
    (process_file ⟨[97, 13, 10], true, true, false⟩).2.2.didWrite = true := by
  decide

/-- Claim C4 (amended): whenever any stage of the pipeline fails the
pipeline returns `Errored`; if the failing stage is classification, the
full read, or decoding, the file is left untouched and no write is
attempted; only a failure of the write stage itself happens after a write
has been attempted. -/
theorem claim4_error_frame (f : FileSys) (e : PError)
    (h : (process_file f).1 = .err e) :
    (e ≠ .ioWrite →
      (process_file f).2.1 = f ∧ (process_file f).2.2.didWrite = false) ∧
    (e = .ioWrite → (process_file f).2.2.didWrite = true) := by
  by_cases ho : f.openReadOk = false
  · rw [process_file_classify_err ho] at h ⊢
    injection h with he
    subst he
    exact ⟨fun _ => ⟨rfl, rfl⟩, fun hx => nomatch hx⟩
  · have ho2 : f.openReadOk = true := by simpa using ho
    by_cases hn : headHasNul f = true
    · rw [process_file_nul_skip ho2 hn] at h
      exact nomatch h
    · have hn2 : headHasNul f = false := by simpa using hn
      by_cases hr : f.readOk = false
      · rw [process_file_read_err ho2 hn2 hr] at h ⊢
        injection h with he
        subst he
        exact ⟨fun _ => ⟨rfl, rfl⟩, fun hx => nomatch hx⟩
      · have hr2 : f.readOk = true := by simpa using hr
        by_cases hu : validUtf8 f.content = false
        · rw [process_file_decode_err ho2 hn2 hr2 hu] at h ⊢
          injection h with he
          subst he
          exact ⟨fun _ => ⟨rfl, rfl⟩, fun hx => nomatch hx⟩
        · have hu2 : validUtf8 f.content = true := by simpa using hu
          by_cases hc : containsCRLF f.content = false
          · rw [process_file_nocrlf_skip ho2 hn2 hr2 hu2 hc] at h
            exact nomatch h
          · have hc2 : containsCRLF f.content = true := by simpa using hc
            by_cases hw : f.writeOk = false
            · rw [process_file_write_err ho2 hn2 hr2 hu2 hc2 hw] at h ⊢
              injection h with he
              subst he
              exact ⟨fun hne => absurd rfl hne, fun _ => rfl⟩
            · have hw2 : f.writeOk = true := by simpa using hw
              rw [process_file_converts ho2 hn2 hr2 hu2 hc2 hw2] at h
              exact nomatch h

/-- Claim C4, witness: the amended theorem applied to an unreadable file,
whose classification error leaves the file untouched with no write. -/
theorem claim4_witness :
    (process_file ⟨[104], false, true, true⟩).2.1 = ⟨[104], false, true, true⟩ ∧
    (process_file ⟨[104], false, true, true⟩).2.2.didWrite = false :=
  (claim4_error_frame ⟨[104], false, true, true⟩ .ioClassify (by decide)).1 (by decide)

/-- Claim C5: over any traversal stream free of walker errors in which
every regular file is either fully-accessible CRLF-bearing text, skippable
(binary by the NUL heuristic, or CRLF-free text), or unreadable, the
directory run tallies exactly the three class counts — each regular file
bumps exactly one counter — and the three counters sum to the number of
regular files, with directories and non-file entries counted nowhere. -/
theorem claim5_tally_census (es : List Entry)
    (h : ∀ e ∈ es, entryWellClassified e = true) :
    runDir es =
      ⟨cntClass classConverted es, cntClass classSkipped es, cntClass classUnreadable es⟩ ∧
    cntClass classConverted es + cntClass classSkipped es + cntClass classUnreadable es
      = cntFiles es := by
  constructor
  · have hfold := runDir_foldAux es ⟨0, 0, 0⟩ h
    simpa [runDir] using hfold
  · exact cnt_partition es h

/-- Claim C5, witness: the census applied to the specification's concrete
scenario (one CRLF text file, one NUL-headed binary, one CRLF-free text
file), whose tally is converted = 1, skipped = 2, errored = 0. -/
theorem claim5_witness :
    runDir sampleTree =
      ⟨cntClass classConverted sampleTree, cntClass classSkipped sampleTree,
        cntClass classUnreadable sampleTree⟩ ∧
    cntClass classConverted sampleTree + cntClass classSkipped sampleTree
        + cntClass classUnreadable sampleTree
      = cntFiles sampleTree :=
  claim5_tally_census sampleTree (by decide)

/-- Claim C6: a readable file whose first 1024 bytes contain a NUL byte is
skipped outright — regardless of any CRLF in the content, the pipeline
answers `ok false`, never performs the full read, never writes, and leaves
the file state unchanged. -/
theorem claim6_nul_skip (f : FileSys) (h1 : f.openReadOk = true)
    (h2 : ∃ b ∈ f.content.take 1024, b = 0) :
    process_file f = (.ok false, f, ⟨false, false⟩) :=
  process_file_nul_skip h1 ((headHasNul_true_iff f).mpr h2)

/-- Claim C6, witness: a file starting with a NUL byte and containing a
CRLF is skipped with no read and no write. -/
theorem claim6_witness :
    process_file ⟨[0, 13, 10], true, true, true⟩ =
      (.ok false, ⟨[0, 13, 10], true, true, true⟩, ⟨false, false⟩) :=
  claim6_nul_skip ⟨[0, 13, 10], true, true, true⟩ rfl (by decide)

/-- Claim C7: a readable, decodable text file (NUL-free head sample) whose
content contains no CRLF is skipped: the pipeline answers `ok false` after
the full read, performs no write, and the file is byte-for-byte
unchanged. -/
theorem claim7_crlf_free_skip (f : FileSys) (h1 : f.openReadOk = true)
    (h2 : ∀ b ∈ f.content.take 1024, b ≠ 0) (h3 : f.readOk = true)
    (h4 : validUtf8 f.content = true) (h5 : containsCRLF f.content = false) :
    process_file f = (.ok false, f, ⟨true, false⟩) :=
  process_file_nocrlf_skip h1 ((headHasNul_false_iff f).mpr h2) h3 h4 h5

/-- Claim C7, witness: the LF-only file "hello\n" is skipped unchanged. -/
theorem claim7_witness :
    process_file ⟨[104, 101, 108, 108, 111, 10], true, true, true⟩ =
      (.ok false, ⟨[104, 101, 108, 108, 111, 10], true, true, true⟩, ⟨true, false⟩) :=
  claim7_crlf_free_skip ⟨[104, 101, 108, 108, 111, 10], true, true, true⟩ rfl (by decide)
    rfl (by decide) (by decide)

/-- Claim C8: whenever the pipeline converts a file, the written content is
exactly the straight search-and-splice substring replacement of every CRLF
by a single LF (`rustReplace`: repeatedly locate the leftmost occurrence,
left to right, non-overlapping); lone LF bytes survive (the LF count is
unchanged) and lone CR bytes survive (only the CRs of matched CRLF pairs
disappear). -/
theorem claim8_replacement (f : FileSys) (h : (process_file f).1 = .ok true) :
    (process_file f).2.1.content = rustReplace f.content ∧
    (process_file f).2.1.content.count 10 = f.content.count 10 ∧
    (process_file f).2.1.content.count 13 + countCRLF f.content = f.content.count 13 := by
  obtain ⟨-, -, -, -, -, -, heq⟩ := process_file_ok_true h
  have hf1 : (process_file f).2.1 = { f with content := replaceCRLF f.content } := by rw [heq]
  rw [hf1]
  exact ⟨(rustReplace_eq _).symm, count10_replaceCRLF _, count13_replaceCRLF _⟩

/-- Claim C8, witness: the replacement semantics applied to the file
"\r\na\r", which carries a trailing lone CR. -/
theorem claim8_witness :
    (process_file ⟨[13, 10, 97, 13], true, true, true⟩).2.1.content
      = rustReplace (FileSys.mk [13, 10, 97, 13] true true true).content ∧
    (process_file ⟨[13, 10, 97, 13], true, true, true⟩).2.1.content.count 10
      = (FileSys.mk [13, 10, 97, 13] true true true).content.count 10 ∧
    (process_file ⟨[13, 10, 97, 13], true, true, true⟩).2.1.content.count 13
        + countCRLF (FileSys.mk [13, 10, 97, 13] true true true).content
      = (FileSys.mk [13, 10, 97, 13] true true true).content.count 13 :=
  claim8_replacement ⟨[13, 10, 97, 13], true, true, true⟩ (by decide)

/-- Claim C9: `main` produces the do-nothing outcome — no directory run, no
single-file run, no pipeline invocation, the world unchanged — exactly when
the root path is neither a directory nor a regular file. -/
theorem claim9_invalid_root_noop (r : Root) :
    mainModel r = (.nothing, r) ↔ r = Root.other := by
  cases r <;> simp [mainModel]

/-- Claim C9, witness: a nonexistent or non-regular root yields no work. -/
theorem claim9_witness :
    mainModel Root.other = (RunResult.nothing, Root.other) :=
  (claim9_invalid_root_noop Root.other).mpr rfl

/-- Claim C10: an empty readable file classifies as text (no sampled byte
is NUL because none is sampled), and the pipeline skips it after the full
read — no CRLF to convert — leaving the file unchanged with no write. -/
theorem claim10_empty_file (f : FileSys) (h0 : f.content = [])
    (h1 : f.openReadOk = true) (h2 : f.readOk = true) :
    is_likely_text_file f = .ok true ∧
      process_file f = (.ok false, f, ⟨true, false⟩) := by
  have hn : headHasNul f = false := by simp [headHasNul, h0]
  constructor
  · simp [is_likely_text_file, h1, hn]
  · exact process_file_nocrlf_skip h1 hn h2 (by rw [h0]; rfl) (by rw [h0]; rfl)

/-- Claim C10, witness: the zero-byte readable file. -/
theorem claim10_witness :
    is_likely_text_file ⟨[], true, true, true⟩ = .ok true ∧
      process_file ⟨[], true, true, true⟩ =
        (.ok false, ⟨[], true, true, true⟩, ⟨true, false⟩) :=
  claim10_empty_file ⟨[], true, true, true⟩ rfl rfl rfl

end LineFeed
